import Mathlib

/-!
Verification development for the claude-ai-suite repository.

The JavaScript sources are shallowly embedded as Lean definitions:
pure string manipulation becomes functions on `String` / `List Char`,
the asynchronous bridge call becomes an explicit environment value
describing what each `puter.ai.chat` invocation yields, and thrown
exceptions become an explicit constructor of the result type.
-/

namespace ClaudeAISuite

/-! ## Configuration constants (src/assets/js/config.js) -/

/-- Value of `CONFIG.API.RATE_LIMIT.REQUESTS_PER_MINUTE` (config.js line 25). -/
def RATE_LIMIT_REQUESTS_PER_MINUTE : Nat := 10

/-- Value of `CONFIG.API.TIMEOUT` (config.js line 20). -/
def API_TIMEOUT : Nat := 30000

/-- Value of `CONFIG.API.MAX_RETRIES` (config.js line 21). -/
def API_MAX_RETRIES : Nat := 3

/-- Value of `CONFIG.API.RETRY_DELAY` (config.js line 22). -/
def API_RETRY_DELAY : Nat := 2000

/-- Keys of `CONFIG.MODELS` (config.js lines 52-157): the configured model
identifiers. -/
def CONFIG_MODEL_IDS : List String :=
  ["claude-4-opus", "claude-4-sonnet", "claude-4-haiku",
   "claude-3-opus-20240229", "claude-3-sonnet-20240229", "claude-3-haiku-20240307",
   "claude-2.1", "claude-instant-1.2"]

/-! ## The remote bridge (`puter.ai.chat`) as an environment

The bridge is an external collaborator.  A call either resolves to a
JavaScript value or rejects with an error.  The values relevant to
`callClaude` are: a plain string, a non-iterable object carrying optional
`text` / `content` string fields, an async-iterable object delivering
`chunk.text` fragments and then either completing or raising, and a
null-ish value. -/

/-- Errors thrown by the bridge or by the timeout race. -/
inductive Err
  | networkError
  | timeout
  | other (msg : String)
deriving DecidableEq, Repr

/-- JavaScript values a `puter.ai.chat` promise can resolve to, as
distinguished by `callClaude` (app.js lines 617-646). `viter` carries the
chunks the async iterator delivers before it either completes
(`failure = none`) or raises (`failure = some e`); a chunk is `none` when it
lacks a `text` field (`chunk?.text` is undefined). -/
inductive JsValue
  | vstr (s : String)
  | vobj (text : Option String) (content : Option String)
  | viter (chunks : List (Option String)) (failure : Option Err)
  | vnull
deriving DecidableEq, Repr

/-- Outcome of awaiting one `puter.ai.chat` call. -/
inductive BridgeResp
  | value (v : JsValue)
  | thrown (e : Err)
deriving DecidableEq, Repr

/-- Options object passed to `puter.ai.chat` by `callClaude`
(app.js lines 612-615 and 637-640). -/
structure ChatOpts where
  model : String
  stream : Bool
deriving DecidableEq, Repr

/-- The bridge environment: what each `puter.ai.chat (prompt, opts)`
invocation yields in the scenario under consideration. -/
structure BridgeEnv where
  chat : String → ChatOpts → BridgeResp

/-- Result of `callClaude`: it returns a string, returns a non-string
object unchanged (the `response?.text || response` expression at app.js
line 630 yields the raw object when `text` is falsy), or throws. -/
inductive CallResult
  | retStr (s : String)
  | retObj (text : Option String) (content : Option String)
  | threw (e : Err)
deriving DecidableEq, Repr

/-- Whether a `callClaude` outcome is a thrown error. -/
def CallResult.isThrown : CallResult → Bool
  | .threw _ => true
  | _ => false

/-! ## `ClaudeAIApp.callClaude` (app.js lines 601-651) -/

/-- The deterministic offline ("mock mode") reply returned by `callClaude`
when the bridge is unavailable (app.js line 607). -/
def offlineFallbackText : String :=
  "[Modalità Offline] Questa è una risposta di test. Per utilizzare Claude AI, assicurati di avere una connessione internet attiva."

/-- Accumulation of streamed fragments: `fullResponse += chunk.text`
guarded by the truthiness of `chunk?.text` (app.js lines 621-625).
An absent `text` field or an empty string contributes nothing. -/
def accumChunks : List (Option String) → String
  | [] => ""
  | c :: cs =>
    (match c with
     | some t => if t ≠ "" then t else ""
     | none => "") ++ accumChunks cs

/-- Normalization of the non-streaming fallback response (app.js lines
642-646): a string is returned as-is, then truthy `text`, then truthy
`content`, else the literal `'Risposta non disponibile'`. -/
def normalizeFallback (v : JsValue) : CallResult :=
  match v with
  | .vstr s => .retStr s
  | .vobj t c =>
    match t with
    | some tx =>
      if tx ≠ "" then .retStr tx
      else
        match c with
        | some cx => if cx ≠ "" then .retStr cx else .retStr "Risposta non disponibile"
        | none => .retStr "Risposta non disponibile"
    | none =>
      match c with
      | some cx => if cx ≠ "" then .retStr cx else .retStr "Risposta non disponibile"
      | none => .retStr "Risposta non disponibile"
  | .viter _ _ => .retStr "Risposta non disponibile"
  | .vnull => .retStr "Risposta non disponibile"

/-- The `catch` branch of `callClaude` (app.js lines 632-650): a second
bridge call with `stream: false`; its resolution is normalized by
`normalizeFallback` and its rejection is re-thrown.  The `Nat` component
counts the total bridge invocations of the whole `callClaude` call
(the failed streaming call plus this one). -/
def fallbackCall (env : BridgeEnv) (prompt model : String) : CallResult × Nat :=
  match env.chat prompt ⟨model, false⟩ with
  | .thrown e => (.threw e, 2)
  | .value v => (normalizeFallback v, 2)

/-- `ClaudeAIApp.callClaude` (app.js lines 601-651).  `ready` is
`this.puterReady`, `puterDef` is `typeof puter !== 'undefined'`, `aiDef`
is the truthiness of `puter.ai`.  The second component counts how many
`puter.ai.chat` invocations the call performs. -/
def callClaude (ready puterDef aiDef : Bool) (env : BridgeEnv)
    (prompt model : String) : CallResult × Nat :=
  if !ready || !puterDef || !aiDef then
    (.retStr offlineFallbackText, 0)
  else
    match env.chat prompt ⟨model, true⟩ with
    | .thrown _ => fallbackCall env prompt model
    | .value v =>
      match v with
      | .viter chunks none =>
        (.retStr (if accumChunks chunks ≠ "" then accumChunks chunks else "Risposta vuota"), 1)
      | .viter _ (some _) => fallbackCall env prompt model
      | .vstr s => (.retStr (if s ≠ "" then s else "Risposta non disponibile"), 1)
      | .vobj t c =>
        (match t with
         | some tx => if tx ≠ "" then .retStr tx else .retObj t c
         | none => .retObj t c, 1)
      | .vnull => (.retStr "Risposta non disponibile", 1)

/-! ## `ClaudeAIApp.checkPuterConnection` (app.js lines 252-280) -/

/-- Tri-state connection status shown by `updateConnectionStatus`
(app.js lines 283-303). -/
inductive ConnStatus
  | connected
  | offline
  | error
deriving DecidableEq, Repr

/-- Outcome of racing the single `puter.ai.chat('test', ...)` probe
against the 5000 ms timeout (app.js lines 259-268). -/
inductive ProbeOutcome
  | resolved (v : JsValue)
  | rejected (e : Err)
  | timedOut
deriving DecidableEq, Repr

/-- Observable result of one `checkPuterConnection` pass; `attempts`
counts the `puter.ai.chat` probe invocations performed and `delays` lists
the backoff waits (in ms) inserted before the probes. -/
structure ConnCheckResult where
  puterReady : Bool
  status : ConnStatus
  attempts : Nat
  delays : List Nat
deriving DecidableEq, Repr

/-- `ClaudeAIApp.checkPuterConnection` (app.js lines 252-280): if the
`puter` global is undefined it throws immediately (caught below, zero
probes); otherwise it performs exactly one probe raced against the 5000 ms
timeout.  Any resolution marks `connected`; any rejection or timeout is
caught and marks `offline`.  There is no retry loop and no backoff delay. -/
def checkPuterConnection (puterDef : Bool) (probe : ProbeOutcome) : ConnCheckResult :=
  if !puterDef then ⟨false, .offline, 0, []⟩
  else
    match probe with
    | .resolved _ => ⟨true, .connected, 1, []⟩
    | .rejected _ => ⟨false, .offline, 1, []⟩
    | .timedOut => ⟨false, .offline, 1, []⟩

/-- Delay schedule claimed by the specification for a reconnection pass:
before try `k`, wait `min (base * 2 ^ (k - 1)) capMs`.  Stated from the
spec's words for comparison with the code's behaviour. -/
def specBackoffDelays (base capMs tries : Nat) : List Nat :=
  (List.range' 1 tries).map (fun k => min (base * 2 ^ (k - 1)) capMs)

/-! ## Rate limiter (spec §4.4)

No `tryAdmit` implementation exists under `src/`; the repository only
declares the ceiling in `CONFIG.API.RATE_LIMIT` (config.js lines 24-28). -/

/-- Width of the sliding window in milliseconds: the per-minute ceiling of
`CONFIG.API.RATE_LIMIT.REQUESTS_PER_MINUTE` applies over one minute. -/
def RATE_WINDOW_MS : Nat := 60000

/-- Modelled from the spec: `tryAdmit` of §4.4 is missing from `src/`.
"Sliding window: maintains timestamps of prior admitted calls; on each
check, discards timestamps older than the window width, then admits
(recording the new timestamp) only if the remaining count is below the
ceiling; otherwise refuses without recording."  The window is the list of
admitted-call timestamps; a timestamp `t` is inside the trailing window at
time `now` when `now < t + RATE_WINDOW_MS`. -/
def tryAdmit (now : Nat) (window : List Nat) : Bool × List Nat :=
  let kept := window.filter (fun t => now < t + RATE_WINDOW_MS)
  if kept.length < RATE_LIMIT_REQUESTS_PER_MINUTE then
    (true, kept ++ [now])
  else
    (false, kept)

/-- Running `tryAdmit` over a sequence of call times, collecting the
admission decisions and threading the window. -/
def admitSeq (times : List Nat) : List Bool × List Nat :=
  times.foldl
    (fun acc t =>
      let step := tryAdmit t acc.2
      (acc.1 ++ [step.1], step.2))
    ([], [])

/-! ## Response cache (spec §4.3)

No response cache exists under `src/` (`callClaude` performs no cache
lookup or store); the spec describes one, so it is modelled here. -/

/-- Modelled from the spec: the cache of §4.3 is missing from `src/`.
Entries are kept in insertion order, oldest first; the key is the hash of
(model identifier, prompt prefix), modelled as a `Nat`. -/
def CacheEntries := List (Nat × String)

/-- Modelled from the spec: "get(key) -> entry|absent" — the first entry
with the given key, if any. -/
def cacheGet (k : Nat) (c : List (Nat × String)) : Option String :=
  (c.find? (fun e => e.1 = k)).map (fun e => e.2)

/-- Modelled from the spec: "Capacity bound enforced on put: if at
capacity, evict the single oldest-inserted entry (insertion order, not
access order) before inserting the new one." -/
def cachePut (maxSize : Nat) (k : Nat) (v : String) (c : List (Nat × String)) :
    List (Nat × String) :=
  (if maxSize ≤ c.length then c.drop 1 else c) ++ [(k, v)]

/-- Folding `cachePut` over a list of key/value pairs. -/
def putAll (maxSize : Nat) (kvs : List (Nat × String)) (c : List (Nat × String)) :
    List (Nat × String) :=
  kvs.foldl (fun acc kv => cachePut maxSize kv.1 kv.2 acc) c

/-! ## `ClaudeAIApp.sendMessage` (app.js lines 535-599) -/

/-- Whitespace recognized by JavaScript `String.prototype.trim`:
ASCII whitespace, NBSP, the Unicode space separators, line separators and
the BOM. -/
def jsWhitespace (c : Char) : Bool :=
  c = ' ' || c = '\t' || c = '\n' || c = '\r' ||
  c.toNat = 0x0b || c.toNat = 0x0c ||
  c.toNat = 0xa0 || c.toNat = 0x1680 ||
  (0x2000 ≤ c.toNat && c.toNat ≤ 0x200a) ||
  c.toNat = 0x2028 || c.toNat = 0x2029 ||
  c.toNat = 0x202f || c.toNat = 0x205f ||
  c.toNat = 0x3000 || c.toNat = 0xfeff

/-- JavaScript `String.prototype.trim` (used at app.js line 539). -/
def jsTrim (s : String) : String :=
  String.mk (((s.data.dropWhile jsWhitespace).reverse.dropWhile jsWhitespace).reverse)

/-- Observable events emitted by one `sendMessage` call (UI rendering is
out of scope; only which messages are produced is recorded). -/
inductive UIEvent
  | userMsg (s : String)
  | assistantMsg (r : CallResult)
  | errorMsg (e : Err)
deriving DecidableEq, Repr

/-- `ClaudeAIApp.sendMessage` (app.js lines 535-599), restricted to its
state lifecycle.  The call returns early when a send is already in flight
(line 536) or when the trimmed input is empty (line 541); otherwise it
sets `isProcessing = true`, awaits `callClaude` (whose awaited outcome is
the `call` parameter), handles success in the `try` block and failure in
the `catch` block, and the `finally` block (lines 595-598) resets
`isProcessing = false` on both paths.  The result is the final value of
`state.isProcessing` together with the emitted events. -/
def sendMessage (isProcessing : Bool) (input : String) (call : CallResult) :
    Bool × List UIEvent :=
  if isProcessing then (isProcessing, [])
  else
    let message := jsTrim input
    if message = "" then (isProcessing, [])
    else
      match call with
      | .threw e => (false, [.userMsg message, .errorMsg e])
      | r => (false, [.userMsg message, .assistantMsg r])

/-- Number of bridge invocations caused by one `sendMessage` call: zero
when an early return fires (already processing, or empty trimmed input),
otherwise the invocations of the inner `callClaude` (app.js line 567) on
the prompt built from the conversation context. -/
def sendMessageBridgeCalls (isProcessing : Bool) (input : String)
    (ready puterDef aiDef : Bool) (env : BridgeEnv) (context model : String) : Nat :=
  if isProcessing then 0
  else
    let message := jsTrim input
    if message = "" then 0
    else (callClaude ready puterDef aiDef env
            (context ++ "\n\nUtente: " ++ message) model).2

/-! ## `ClaudeAIApp.formatMessage` (app.js lines 1016-1026)

The seven chained `.replace` calls are embedded over `List Char`.  To
express "no `<` or `>` of the produced HTML originates from the input",
the same pipeline also runs over `Char × Bool`, where the boolean marks
characters that come from the input string; replacement text is inserted
with the mark `false`.  Both pipelines are instances of the same generic
functions, `replaceChar` and `replaceDelim`, over an element type `α`
with a projection `key : α → Char` (the character a regex sees) and an
injection `inj : Char → α` (how replacement text enters the list). -/

/-- Characters the JavaScript regex `.` does not match (the line
terminators); the lazy group `(.*?)` cannot extend across them. -/
def dotChar (c : Char) : Bool :=
  !(c = '\n' || c = '\r' || c.toNat = 0x2028 || c.toNat = 0x2029)

/-- The backquote character, delimiter of the inline-code replacement. -/
def backquoteChar : Char := Char.ofNat 96

/-- `String.prototype.replace` with a single-character pattern and `g`
flag: every element whose key is `t` becomes the replacement text. -/
def replaceChar {α : Type} (key : α → Char) (inj : Char → α)
    (t : Char) (repl : List Char) : List α → List α
  | [] => []
  | a :: as =>
    (if key a = t then repl.map inj else [a]) ++ replaceChar key inj t repl as

/-- Literal match of `delim` at the head of the list; `some rest` is the
remainder after the delimiter. -/
def delimMatch {α : Type} (key : α → Char) : List Char → List α → Option (List α)
  | [], xs => some xs
  | _ :: _, [] => none
  | d :: ds, a :: as => if key a = d then delimMatch key ds as else none

/-- Lazy search for the closing delimiter: the shortest capture (made of
characters the regex `.` matches) followed by `delim`.  `some (cap, rest)`
is the capture and the remainder after the closing delimiter. -/
def findClose {α : Type} (key : α → Char) (delim : List Char) :
    List α → Option (List α × List α)
  | [] =>
    match delimMatch key delim ([] : List α) with
    | some rest => some ([], rest)
    | none => none
  | a :: as =>
    match delimMatch key delim (a :: as) with
    | some rest => some ([], rest)
    | none =>
      if dotChar (key a) then
        match findClose key delim as with
        | some (p, r) => some (a :: p, r)
        | none => none
      else none

/-- Match of the whole pattern `delim (.*?) delim` at the head of the
list: the opening delimiter (nonempty, `d :: ds`), then the lazy capture
and the closing delimiter. -/
def openCloseMatch {α : Type} (key : α → Char) (d : Char) (ds : List Char)
    (xs : List α) : Option (List α × List α) :=
  match delimMatch key (d :: ds) xs with
  | none => none
  | some rest => findClose key (d :: ds) rest

theorem delimMatch_length {α : Type} (key : α → Char) :
    ∀ (delim : List Char) (xs rest : List α),
      delimMatch key delim xs = some rest → rest.length + delim.length = xs.length := by
  intro delim
  induction delim with
  | nil =>
    intro xs rest h
    simp [delimMatch] at h
    simp [h]
  | cons d ds ih =>
    intro xs rest h
    cases xs with
    | nil => simp [delimMatch] at h
    | cons a as =>
      by_cases hk : key a = d
      · simp [delimMatch, hk] at h
        have := ih as rest h
        simp [List.length_cons, ← this]
        omega
      · simp [delimMatch, hk] at h

theorem findClose_length {α : Type} (key : α → Char) (d : Char) (ds : List Char) :
    ∀ (xs p r : List α),
      findClose key (d :: ds) xs = some (p, r) → r.length < xs.length := by
  intro xs
  induction xs with
  | nil =>
    intro p r h
    simp [findClose, delimMatch] at h
  | cons a as ih =>
    intro p r h
    unfold findClose at h
    cases hdm : delimMatch key (d :: ds) (a :: as) with
    | some rest =>
      rw [hdm] at h
      simp at h
      have hlen := delimMatch_length key (d :: ds) (a :: as) rest hdm
      have : r = rest := by simp [← h.2]
      subst this
      simp only [List.length_cons] at hlen ⊢
      omega
    | none =>
      rw [hdm] at h
      by_cases hdc : dotChar (key a)
      · simp [hdc] at h
        cases hfc : findClose key (d :: ds) as with
        | some pr =>
          rw [hfc] at h
          simp at h
          have := ih pr.1 pr.2 (by rw [hfc])
          have hr : r = pr.2 := by
            cases pr
            simp_all
          rw [hr]
          simp [List.length_cons]
          omega
        | none => rw [hfc] at h; simp at h
      · simp [hdc] at h

theorem openCloseMatch_length {α : Type} (key : α → Char) (d : Char) (ds : List Char)
    (xs p r : List α) (h : openCloseMatch key d ds xs = some (p, r)) :
    r.length < xs.length := by
  unfold openCloseMatch at h
  cases hdm : delimMatch key (d :: ds) xs with
  | none => rw [hdm] at h; simp at h
  | some rest =>
    rw [hdm] at h
    have h1 := delimMatch_length key (d :: ds) xs rest hdm
    have h2 := findClose_length key d ds rest p r h
    simp [List.length_cons] at h1
    omega

/-- `String.prototype.replace` with a lazy pair pattern
`delim (.*?) delim` and `g` flag, as in the bold/italic/code
substitutions: scanning left to right, each match is replaced by
`openTag ++ capture ++ closeTag`; scanning resumes after the match, and a
position with no match emits its character unchanged. -/
def replaceDelim {α : Type} (key : α → Char) (inj : Char → α) (d : Char)
    (ds openTag closeTag : List Char) : List α → List α
  | [] => []
  | a :: as =>
    match h : openCloseMatch key d ds (a :: as) with
    | some (cap, r) =>
      openTag.map inj ++ cap ++ closeTag.map inj ++
        replaceDelim key inj d ds openTag closeTag r
    | none => a :: replaceDelim key inj d ds openTag closeTag as
termination_by xs => xs.length
decreasing_by
  · exact openCloseMatch_length key d ds _ cap r h
  · simp

/-- `ClaudeAIApp.formatMessage` (app.js lines 1016-1026): escape `&`,
then `<`, then `>`, then replace newlines with `<br>`, `**…**` with
`<strong>…</strong>`, `*…*` with `<em>…</em>` and `` `…` `` with
`<code>…</code>`. -/
def formatMessage (content : List Char) : List Char :=
  replaceDelim id id backquoteChar [] "<code>".toList "</code>".toList
    (replaceDelim id id '*' [] "<em>".toList "</em>".toList
      (replaceDelim id id '*' ['*'] "<strong>".toList "</strong>".toList
        (replaceChar id id '\n' "<br>".toList
          (replaceChar id id '>' "&gt;".toList
            (replaceChar id id '<' "&lt;".toList
              (replaceChar id id '&' "&amp;".toList content))))))

/-- Marks every character of the input as input-originated. -/
def markTrue (s : List Char) : List (Char × Bool) := s.map (fun c => (c, true))

/-- Injection of replacement text into the marked pipeline: inserted
characters are not input-originated. -/
def injFalse : Char → Char × Bool := fun c => (c, false)

/-- The `formatMessage` pipeline over marked characters: identical
control flow, with replacement text inserted via `injFalse`. -/
def formatMessageMarked (content : List Char) : List (Char × Bool) :=
  replaceDelim Prod.fst injFalse backquoteChar [] "<code>".toList "</code>".toList
    (replaceDelim Prod.fst injFalse '*' [] "<em>".toList "</em>".toList
      (replaceDelim Prod.fst injFalse '*' ['*'] "<strong>".toList "</strong>".toList
        (replaceChar Prod.fst injFalse '\n' "<br>".toList
          (replaceChar Prod.fst injFalse '>' "&gt;".toList
            (replaceChar Prod.fst injFalse '<' "&lt;".toList
              (replaceChar Prod.fst injFalse '&' "&amp;".toList (markTrue content)))))))

/-! ## Lemmas relating the marked and plain `formatMessage` pipelines -/

theorem markTrue_map_fst (s : List Char) : (markTrue s).map Prod.fst = s := by
  induction s with
  | nil => rfl
  | cons a as ih => simp only [markTrue, List.map_cons] at ih ⊢; rw [ih]

theorem map_comp_inj {α : Type} (key : α → Char) (inj : Char → α)
    (hk : ∀ ch, key (inj ch) = ch) : ∀ l : List Char, (l.map inj).map key = l := by
  intro l
  induction l with
  | nil => rfl
  | cons x xs ih => simp only [List.map_cons, hk, ih]

theorem replaceChar_map {α : Type} (key : α → Char) (inj : Char → α)
    (hk : ∀ c, key (inj c) = c) (t : Char) (repl : List Char) :
    ∀ xs : List α,
      (replaceChar key inj t repl xs).map key = replaceChar id id t repl (xs.map key) := by
  intro xs
  induction xs with
  | nil => simp [replaceChar]
  | cons a as ih =>
    simp only [replaceChar, List.map_cons, List.map_append, id]
    by_cases hka : key a = t
    · rw [if_pos hka, if_pos hka, ih]
      congr 1
      rw [map_comp_inj key inj hk repl, List.map_id]
    · simp [hka, ih]

theorem delimMatch_map {α : Type} (key : α → Char) :
    ∀ (delim : List Char) (xs : List α),
      delimMatch id delim (xs.map key) = (delimMatch key delim xs).map (List.map key) := by
  intro delim
  induction delim with
  | nil => intro xs; simp [delimMatch]
  | cons d ds ih =>
    intro xs
    cases xs with
    | nil => simp [delimMatch]
    | cons a as =>
      simp only [delimMatch, List.map_cons, id]
      by_cases hka : key a = d
      · simp [hka, ih]
      · simp [hka]

theorem findClose_map {α : Type} (key : α → Char) (delim : List Char) :
    ∀ xs : List α,
      findClose id delim (xs.map key) =
        (findClose key delim xs).map (fun pr => (pr.1.map key, pr.2.map key)) := by
  intro xs
  induction xs with
  | nil =>
    simp only [List.map_nil, findClose]
    rw [show (delimMatch id delim ([] : List Char)) = delimMatch id delim (([] : List α).map key) by simp]
    rw [delimMatch_map key delim ([] : List α)]
    cases delimMatch key delim ([] : List α) <;> simp
  | cons a as ih =>
    simp only [List.map_cons, findClose]
    rw [show (key a :: as.map key) = ((a :: as).map key) by simp]
    rw [delimMatch_map key delim (a :: as)]
    cases hdm : delimMatch key delim (a :: as) with
    | some rest => simp
    | none =>
      simp only [Option.map_none, id]
      by_cases hdc : dotChar (key a)
      · simp only [hdc, if_pos rfl, ih]
        cases findClose key delim as <;> simp
      · simp [hdc]

theorem openCloseMatch_map {α : Type} (key : α → Char) (d : Char) (ds : List Char)
    (xs : List α) :
    openCloseMatch id d ds (xs.map key) =
      (openCloseMatch key d ds xs).map (fun pr => (pr.1.map key, pr.2.map key)) := by
  unfold openCloseMatch
  rw [delimMatch_map key (d :: ds) xs]
  cases hdm : delimMatch key (d :: ds) xs with
  | none => simp
  | some rest => simp [findClose_map key (d :: ds) rest]

theorem replaceDelim_nil {α : Type} (key : α → Char) (inj : Char → α) (d : Char)
    (ds o c : List Char) : replaceDelim key inj d ds o c ([] : List α) = [] := by
  unfold replaceDelim
  rfl

theorem replaceDelim_cons_some {α : Type} (key : α → Char) (inj : Char → α) (d : Char)
    (ds o c : List Char) (a : α) (as cap r : List α)
    (h : openCloseMatch key d ds (a :: as) = some (cap, r)) :
    replaceDelim key inj d ds o c (a :: as) =
      o.map inj ++ cap ++ c.map inj ++ replaceDelim key inj d ds o c r := by
  conv_lhs => unfold replaceDelim
  split
  · rename_i cap' r' h'
    rw [h] at h'
    have h1 : cap = cap' ∧ r = r' := by simpa using h'
    rw [h1.1, h1.2]
  · rename_i h'
    rw [h] at h'
    simp at h'

theorem replaceDelim_cons_none {α : Type} (key : α → Char) (inj : Char → α) (d : Char)
    (ds o c : List Char) (a : α) (as : List α)
    (h : openCloseMatch key d ds (a :: as) = none) :
    replaceDelim key inj d ds o c (a :: as) = a :: replaceDelim key inj d ds o c as := by
  conv_lhs => unfold replaceDelim
  split
  · rename_i cap' r' h'
    rw [h] at h'
    simp at h'
  · rfl

theorem replaceDelim_map {α : Type} (key : α → Char) (inj : Char → α)
    (hk : ∀ ch, key (inj ch) = ch) (d : Char) (ds o c : List Char) :
    ∀ (n : Nat) (xs : List α), xs.length ≤ n →
      (replaceDelim key inj d ds o c xs).map key =
        replaceDelim id id d ds o c (xs.map key) := by
  intro n
  induction n with
  | zero =>
    intro xs h
    have hnil : xs = [] := by cases xs <;> simp_all
    subst hnil
    simp [replaceDelim_nil]
  | succ n ih =>
    intro xs h
    cases xs with
    | nil => simp [replaceDelim_nil]
    | cons a as =>
      cases hoc : openCloseMatch key d ds (a :: as) with
      | some pr =>
        obtain ⟨cap, r⟩ := pr
        have hoc' : openCloseMatch id d ds ((a :: as).map key) = some (cap.map key, r.map key) := by
          rw [openCloseMatch_map key d ds (a :: as), hoc]
          rfl
        rw [replaceDelim_cons_some key inj d ds o c a as cap r hoc]
        have hmap : (a :: as).map key = key a :: as.map key := by simp
        rw [hmap] at hoc'
        rw [show ((a :: as).map key) = (key a :: as.map key) by simp]
        rw [replaceDelim_cons_some id id d ds o c (key a) (as.map key) (cap.map key) (r.map key) hoc']
        have hr : r.length ≤ n := by
          have := openCloseMatch_length key d ds (a :: as) cap r hoc
          simp only [List.length_cons] at this h
          omega
        have ho : List.map key (List.map inj o) = o := map_comp_inj key inj hk o
        have hc2 : List.map key (List.map inj c) = c := map_comp_inj key inj hk c
        simp only [List.map_append, List.map_id]
        rw [ih r hr, ho, hc2]
      | none =>
        have hoc' : openCloseMatch id d ds (key a :: as.map key) = none := by
          rw [show (key a :: as.map key) = ((a :: as).map key) by simp]
          rw [openCloseMatch_map key d ds (a :: as), hoc]
          rfl
        rw [replaceDelim_cons_none key inj d ds o c a as hoc]
        rw [show ((a :: as).map key) = (key a :: as.map key) by simp]
        rw [replaceDelim_cons_none id id d ds o c (key a) (as.map key) hoc']
        simp only [List.map_cons]
        congr 1
        exact ih as (by simp only [List.length_cons] at h; omega)

/-! ## Membership lemmas: where output elements come from -/

theorem replaceChar_mem {α : Type} (key : α → Char) (inj : Char → α)
    (t : Char) (repl : List Char) :
    ∀ (xs : List α) (b : α), b ∈ replaceChar key inj t repl xs →
      b ∈ xs ∨ ∃ ch ∈ repl, b = inj ch := by
  intro xs
  induction xs with
  | nil => intro b hb; simp [replaceChar] at hb
  | cons a as ih =>
    intro b hb
    simp only [replaceChar, List.mem_append] at hb
    rcases hb with hb | hb
    · by_cases hka : key a = t
      · rw [if_pos hka] at hb
        simp only [List.mem_map] at hb
        obtain ⟨ch, hch, rfl⟩ := hb
        exact Or.inr ⟨ch, hch, rfl⟩
      · rw [if_neg hka] at hb
        simp only [List.mem_singleton] at hb
        exact Or.inl (by simp [hb])
    · rcases ih b hb with h | h
      · exact Or.inl (List.mem_cons_of_mem a h)
      · exact Or.inr h

theorem delimMatch_mem {α : Type} (key : α → Char) :
    ∀ (delim : List Char) (xs rest : List α),
      delimMatch key delim xs = some rest → ∀ b ∈ rest, b ∈ xs := by
  intro delim
  induction delim with
  | nil =>
    intro xs rest h b hb
    simp only [delimMatch, Option.some.injEq] at h
    rw [h]
    exact hb
  | cons d ds ih =>
    intro xs rest h b hb
    cases xs with
    | nil => simp [delimMatch] at h
    | cons a as =>
      by_cases hka : key a = d
      · simp only [delimMatch, hka, if_pos rfl] at h
        exact List.mem_cons_of_mem a (ih as rest h b hb)
      · simp [delimMatch, hka] at h

theorem findClose_mem {α : Type} (key : α → Char) (delim : List Char) :
    ∀ (xs p r : List α), findClose key delim xs = some (p, r) →
      (∀ b ∈ p, b ∈ xs) ∧ (∀ b ∈ r, b ∈ xs) := by
  intro xs
  induction xs with
  | nil =>
    intro p r h
    simp only [findClose] at h
    cases hdm : delimMatch key delim ([] : List α) with
    | some rest =>
      rw [hdm] at h
      simp only [Option.some.injEq, Prod.mk.injEq] at h
      constructor
      · intro b hb
        rw [← h.1] at hb
        simp at hb
      · intro b hb
        rw [← h.2] at hb
        exact delimMatch_mem key delim [] rest hdm b hb
    | none => rw [hdm] at h; simp at h
  | cons a as ih =>
    intro p r h
    simp only [findClose] at h
    cases hdm : delimMatch key delim (a :: as) with
    | some rest =>
      rw [hdm] at h
      simp only [Option.some.injEq, Prod.mk.injEq] at h
      constructor
      · intro b hb
        rw [← h.1] at hb
        simp at hb
      · intro b hb
        rw [← h.2] at hb
        exact delimMatch_mem key delim (a :: as) rest hdm b hb
    | none =>
      rw [hdm] at h
      by_cases hdc : dotChar (key a)
      · simp only [hdc, if_pos rfl] at h
        cases hfc : findClose key delim as with
        | some pr =>
          rw [hfc] at h
          simp at h
          obtain ⟨cap, rest⟩ := pr
          have := ih cap rest hfc
          constructor
          · intro b hb
            rw [← h.1] at hb
            rcases List.mem_cons.mp hb with hba | hb
            · rw [hba]
              exact List.mem_cons_self a as
            · exact List.mem_cons_of_mem a (this.1 b hb)
          · intro b hb
            rw [← h.2] at hb
            exact List.mem_cons_of_mem a (this.2 b hb)
        | none => rw [hfc] at h; simp at h
      · simp [hdc] at h

theorem openCloseMatch_mem {α : Type} (key : α → Char) (d : Char) (ds : List Char)
    (xs cap r : List α) (h : openCloseMatch key d ds xs = some (cap, r)) :
    (∀ b ∈ cap, b ∈ xs) ∧ (∀ b ∈ r, b ∈ xs) := by
  unfold openCloseMatch at h
  cases hdm : delimMatch key (d :: ds) xs with
  | none => rw [hdm] at h; simp at h
  | some rest =>
    rw [hdm] at h
    have hfc := findClose_mem key (d :: ds) rest cap r h
    have hrest := delimMatch_mem key (d :: ds) xs rest hdm
    exact ⟨fun b hb => hrest b (hfc.1 b hb), fun b hb => hrest b (hfc.2 b hb)⟩

theorem replaceDelim_mem {α : Type} (key : α → Char) (inj : Char → α) (d : Char)
    (ds o c : List Char) :
    ∀ (n : Nat) (xs : List α), xs.length ≤ n →
      ∀ b ∈ replaceDelim key inj d ds o c xs, b ∈ xs ∨ ∃ ch, b = inj ch := by
  intro n
  induction n with
  | zero =>
    intro xs h b hb
    have hnil : xs = [] := by cases xs <;> simp_all
    subst hnil
    rw [replaceDelim_nil] at hb
    simp at hb
  | succ n ih =>
    intro xs h b hb
    cases xs with
    | nil => rw [replaceDelim_nil] at hb; simp at hb
    | cons a as =>
      cases hoc : openCloseMatch key d ds (a :: as) with
      | some pr =>
        obtain ⟨cap, r⟩ := pr
        rw [replaceDelim_cons_some key inj d ds o c a as cap r hoc] at hb
        have hmem := openCloseMatch_mem key d ds (a :: as) cap r hoc
        have hr : r.length ≤ n := by
          have := openCloseMatch_length key d ds (a :: as) cap r hoc
          simp only [List.length_cons] at this h
          omega
        simp only [List.mem_append] at hb
        rcases hb with ((hb | hb) | hb) | hb
        · simp only [List.mem_map] at hb
          obtain ⟨ch, _, rfl⟩ := hb
          exact Or.inr ⟨ch, rfl⟩
        · exact Or.inl (hmem.1 b hb)
        · simp only [List.mem_map] at hb
          obtain ⟨ch, _, rfl⟩ := hb
          exact Or.inr ⟨ch, rfl⟩
        · rcases ih r hr b hb with h1 | h1
          · exact Or.inl (hmem.2 b h1)
          · exact Or.inr h1
      | none =>
        rw [replaceDelim_cons_none key inj d ds o c a as hoc] at hb
        rcases List.mem_cons.mp hb with hba | hb
        · rw [hba]
          exact Or.inl (List.mem_cons_self a as)
        · rcases ih as (by simp only [List.length_cons] at h; omega) b hb with h1 | h1
          · exact Or.inl (List.mem_cons_of_mem a h1)
          · exact Or.inr h1

theorem replaceChar_key_out {α : Type} (key : α → Char) (inj : Char → α)
    (hk : ∀ ch, key (inj ch) = ch) (t : Char) (repl : List Char)
    (hrepl : ∀ ch ∈ repl, ch ≠ t) :
    ∀ (xs : List α) (b : α), b ∈ replaceChar key inj t repl xs → key b ≠ t := by
  intro xs
  induction xs with
  | nil => intro b hb; simp [replaceChar] at hb
  | cons a as ih =>
    intro b hb
    simp only [replaceChar, List.mem_append] at hb
    rcases hb with hb | hb
    · by_cases hka : key a = t
      · rw [if_pos hka] at hb
        simp only [List.mem_map] at hb
        obtain ⟨ch, hch, rfl⟩ := hb
        rw [hk ch]
        exact hrepl ch hch
      · rw [if_neg hka] at hb
        simp only [List.mem_singleton] at hb
        rw [hb]
        exact hka
    · exact ih b hb

theorem replaceChar_preserves {P : Char × Bool → Prop}
    (hfalse : ∀ ch, P (ch, false)) (t : Char) (repl : List Char)
    (xs : List (Char × Bool)) (hxs : ∀ b ∈ xs, P b) :
    ∀ b ∈ replaceChar Prod.fst injFalse t repl xs, P b := by
  intro b hb
  rcases replaceChar_mem Prod.fst injFalse t repl xs b hb with h | ⟨ch, _, rfl⟩
  · exact hxs b h
  · exact hfalse ch

theorem replaceDelim_preserves {P : Char × Bool → Prop}
    (hfalse : ∀ ch, P (ch, false)) (d : Char) (ds o c : List Char)
    (xs : List (Char × Bool)) (hxs : ∀ b ∈ xs, P b) :
    ∀ b ∈ replaceDelim Prod.fst injFalse d ds o c xs, P b := by
  intro b hb
  rcases replaceDelim_mem Prod.fst injFalse d ds o c xs.length xs le_rfl b hb
    with h | ⟨ch, rfl⟩
  · exact hxs b h
  · exact hfalse ch

theorem escape_chain_no_angles (s : List Char) :
    ∀ b ∈ replaceChar Prod.fst injFalse '>' "&gt;".toList
            (replaceChar Prod.fst injFalse '<' "&lt;".toList
              (replaceChar Prod.fst injFalse '&' "&amp;".toList (markTrue s))),
      b.1 ≠ '<' ∧ b.1 ≠ '>' := by
  intro b hb
  constructor
  · rcases replaceChar_mem Prod.fst injFalse '>' "&gt;".toList _ b hb
      with h | ⟨ch, hch, rfl⟩
    · exact replaceChar_key_out Prod.fst injFalse (fun ch => rfl) '<' "&lt;".toList
        (by decide) _ b h
    · have hall : ∀ x ∈ "&gt;".toList, x ≠ '<' := by decide
      exact hall ch hch
  · exact replaceChar_key_out Prod.fst injFalse (fun ch => rfl) '>' "&gt;".toList
      (by decide) _ b hb

theorem formatMessageMarked_input_safe (s : List Char) :
    ∀ b ∈ formatMessageMarked s, b.2 = true → b.1 ≠ '<' ∧ b.1 ≠ '>' := by
  have hfalse : ∀ ch : Char,
      (((ch, false) : Char × Bool).2 = true → (ch, false).1 ≠ '<' ∧ (ch, false).1 ≠ '>') := by
    intro ch h
    simp at h
  have base : ∀ b ∈ replaceChar Prod.fst injFalse '>' "&gt;".toList
      (replaceChar Prod.fst injFalse '<' "&lt;".toList
        (replaceChar Prod.fst injFalse '&' "&amp;".toList (markTrue s))),
      b.2 = true → b.1 ≠ '<' ∧ b.1 ≠ '>' :=
    fun b hb _ => escape_chain_no_angles s b hb
  exact replaceDelim_preserves hfalse backquoteChar [] "<code>".toList "</code>".toList _
    (replaceDelim_preserves hfalse '*' [] "<em>".toList "</em>".toList _
      (replaceDelim_preserves hfalse '*' ['*'] "<strong>".toList "</strong>".toList _
        (replaceChar_preserves hfalse '\n' "<br>".toList _ base)))

theorem formatMessageMarked_erase (s : List Char) :
    (formatMessageMarked s).map Prod.fst = formatMessage s := by
  have hk : ∀ ch : Char, (injFalse ch).1 = ch := fun ch => rfl
  unfold formatMessageMarked formatMessage
  rw [replaceDelim_map Prod.fst injFalse hk backquoteChar [] "<code>".toList "</code>".toList _ _ le_rfl,
      replaceDelim_map Prod.fst injFalse hk '*' [] "<em>".toList "</em>".toList _ _ le_rfl,
      replaceDelim_map Prod.fst injFalse hk '*' ['*'] "<strong>".toList "</strong>".toList _ _ le_rfl,
      replaceChar_map Prod.fst injFalse hk '\n' "<br>".toList _,
      replaceChar_map Prod.fst injFalse hk '>' "&gt;".toList _,
      replaceChar_map Prod.fst injFalse hk '<' "&lt;".toList _,
      replaceChar_map Prod.fst injFalse hk '&' "&amp;".toList _,
      markTrue_map_fst]

/-! ## Helper lemmas for the cache, the rate limiter and the call counts -/

theorem putAll_append_of_room (m : Nat) :
    ∀ (kvs c : List (Nat × String)), c.length + kvs.length ≤ m →
      putAll m kvs c = c ++ kvs := by
  intro kvs
  induction kvs with
  | nil => intro c h; simp [putAll]
  | cons kv rest ih =>
    intro c h
    simp only [List.length_cons] at h
    have hput : cachePut m kv.1 kv.2 c = c ++ [kv] := by
      unfold cachePut
      rw [if_neg (by omega)]
    simp only [putAll, List.foldl_cons]
    rw [show cachePut m kv.1 kv.2 c = c ++ [kv] from hput]
    have := ih (c ++ [kv]) (by simp only [List.length_append, List.length_singleton]; omega)
    simp only [putAll] at this
    rw [this, List.append_assoc]
    rfl

theorem cacheGet_range' (v : Nat → String) :
    ∀ (n a k : Nat), cacheGet k ((List.range' a n).map (fun i => (i, v i))) =
      if a ≤ k ∧ k < a + n then some (v k) else none := by
  intro n
  induction n with
  | zero =>
    intro a k
    rw [if_neg (by omega)]
    rfl
  | succ n ih =>
    intro a k
    rw [List.range'_succ]
    simp only [List.map_cons]
    by_cases hak : a = k
    · subst hak
      unfold cacheGet
      rw [List.find?_cons_of_pos _ (by simp)]
      rw [if_pos (by omega)]
      rfl
    · unfold cacheGet
      rw [List.find?_cons_of_neg _ (by simp [hak])]
      have := ih (a + 1) k
      unfold cacheGet at this
      rw [this]
      by_cases hin : a + 1 ≤ k ∧ k < a + 1 + n
      · rw [if_pos hin, if_pos (by omega)]
      · rw [if_neg hin, if_neg (by omega)]

theorem cache_fifo_core (mm : Nat) (v : Nat → String) :
    putAll (mm + 1) ((List.range (mm + 2)).map (fun i => (i, v i))) [] =
      (List.range' 1 (mm + 1)).map (fun i => (i, v i)) := by
  have hsplit : List.range (mm + 2) = List.range (mm + 1) ++ [mm + 1] :=
    List.range_succ (mm + 1)
  rw [hsplit, List.map_append]
  unfold putAll
  rw [List.foldl_append]
  have hfill : List.foldl (fun acc kv => cachePut (mm + 1) kv.1 kv.2 acc) []
      ((List.range (mm + 1)).map (fun i => (i, v i))) =
      (List.range (mm + 1)).map (fun i => (i, v i)) := by
    have := putAll_append_of_room (mm + 1) ((List.range (mm + 1)).map (fun i => (i, v i))) []
      (by simp)
    simpa [putAll] using this
  rw [hfill]
  simp only [List.map_cons, List.map_nil, List.foldl_cons, List.foldl_nil]
  unfold cachePut
  rw [if_pos (by simp)]
  have hdrop : ((List.range (mm + 1)).map (fun i => (i, v i))).drop 1 =
      (List.range' 1 mm).map (fun i => (i, v i)) := by
    rw [List.range_eq_range', List.range'_succ]
    simp
  rw [hdrop]
  have hconcat : (List.range' 1 (mm + 1)).map (fun i => (i, v i)) =
      (List.range' 1 mm).map (fun i => (i, v i)) ++ [(1 + mm, v (1 + mm))] := by
    rw [show mm + 1 = mm + 1 from rfl, List.range'_1_concat]
    simp
  rw [hconcat]
  have : (1 + mm, v (1 + mm)) = (mm + 1, v (mm + 1)) := by
    rw [Nat.add_comm 1 mm]
  rw [this]

theorem callClaude_count_pos (env : BridgeEnv) (p m : String) :
    1 ≤ (callClaude true true true env p m).2 := by
  unfold callClaude fallbackCall
  cases henv : env.chat p ⟨m, true⟩ with
  | thrown e =>
    cases env.chat p ⟨m, false⟩ <;> simp [henv]
  | value v =>
    cases v with
    | vstr s => simp [henv]
    | vobj t c => simp [henv]
    | viter chunks failure =>
      cases failure with
      | none => simp [henv]
      | some e => cases env.chat p ⟨m, false⟩ <;> simp [henv]
    | vnull => simp [henv]

/-! ## The claims -/

/-- Claim C1: whenever the connection is not reported as connected (the
bridge global undefined, `puter.ai` missing, or `puterReady` false),
`callClaude` returns the fixed non-empty offline-mode string for every
prompt and model, and performs zero bridge invocations. -/
theorem callClaude_offline_fallback (ready puterDef aiDef : Bool) (env : BridgeEnv)
    (prompt model : String)
    (h : ready = false ∨ puterDef = false ∨ aiDef = false) :
    callClaude ready puterDef aiDef env prompt model = (.retStr offlineFallbackText, 0) ∧
    offlineFallbackText ≠ "" := by
  constructor
  · unfold callClaude
    rcases h with rfl | rfl | rfl <;> simp
  · decide

/-- Witness for C1 at a concrete offline state, prompt and model. -/
theorem callClaude_offline_fallback_witness :
    callClaude false true true ⟨fun _ _ => .thrown .networkError⟩ "ciao"
        "claude-3-sonnet-20240229" = (.retStr offlineFallbackText, 0) ∧
    offlineFallbackText ≠ "" :=
  callClaude_offline_fallback false true true ⟨fun _ _ => .thrown .networkError⟩ "ciao"
    "claude-3-sonnet-20240229" (Or.inl rfl)

/-- Claim C2 (spec-modelled): the sliding-window rate limiter keeps the
window at or below the ceiling, admits the first ten calls made at time 0,
refuses the eleventh call made within 60000 ms without recording it, and
admits again once 60000 ms have elapsed from the first call. -/
theorem tryAdmit_sliding_window :
    (∀ now w, w.length ≤ RATE_LIMIT_REQUESTS_PER_MINUTE →
        ((tryAdmit now w).2).length ≤ RATE_LIMIT_REQUESTS_PER_MINUTE) ∧
    (admitSeq (List.replicate 10 0)).1 = List.replicate 10 true ∧
    (admitSeq (List.replicate 10 0)).2 = List.replicate 10 (0 : Nat) ∧
    (∀ d, d < 60000 → tryAdmit d (List.replicate 10 0) = (false, List.replicate 10 0)) ∧
    tryAdmit 60000 (List.replicate 10 0) = (true, [60000]) := by
  refine ⟨?_, by decide, by decide, ?_, by decide⟩
  · intro now w hw
    unfold tryAdmit
    by_cases hlt : (w.filter (fun t => now < t + RATE_WINDOW_MS)).length <
        RATE_LIMIT_REQUESTS_PER_MINUTE
    · rw [if_pos hlt]
      simp only [List.length_append, List.length_singleton]
      omega
    · rw [if_neg hlt]
      calc (w.filter (fun t => now < t + RATE_WINDOW_MS)).length
          ≤ w.length := List.length_filter_le _ w
        _ ≤ RATE_LIMIT_REQUESTS_PER_MINUTE := hw
  · intro d hd
    unfold tryAdmit
    have hkeep : (List.replicate 10 (0 : Nat)).filter (fun t => d < t + RATE_WINDOW_MS) =
        List.replicate 10 (0 : Nat) := by
      rw [List.filter_eq_self]
      intro a ha
      have : a = 0 := List.eq_of_mem_replicate ha
      subst this
      simpa [RATE_WINDOW_MS] using hd
    rw [hkeep]
    rw [if_neg (by simp [RATE_LIMIT_REQUESTS_PER_MINUTE])]

/-- Witness for C2's universally quantified parts at concrete inputs. -/
theorem tryAdmit_sliding_window_witness :
    ((tryAdmit 5 [0, 1, 2]).2).length ≤ RATE_LIMIT_REQUESTS_PER_MINUTE ∧
    tryAdmit 59999 (List.replicate 10 0) = (false, List.replicate 10 0) :=
  ⟨tryAdmit_sliding_window.1 5 [0, 1, 2] (by decide),
   tryAdmit_sliding_window.2.2.2.1 59999 (by decide)⟩

/-- Claim C3 (spec-modelled): the bounded FIFO cache, after `maxSize + 1`
puts of distinct keys `0 .. maxSize` into an empty cache, has evicted
exactly the first-inserted key (`get 0` is absent) while every later key
is still present with its value. -/
theorem cache_evicts_oldest (m : Nat) (hm : 0 < m) (v : Nat → String) :
    cacheGet 0 (putAll m ((List.range (m + 1)).map (fun i => (i, v i))) []) = none ∧
    ∀ k, 1 ≤ k → k ≤ m →
      cacheGet k (putAll m ((List.range (m + 1)).map (fun i => (i, v i))) []) =
        some (v k) := by
  obtain ⟨mm, rfl⟩ : ∃ mm, m = mm + 1 := ⟨m - 1, by omega⟩
  rw [show mm + 1 + 1 = mm + 2 from rfl, cache_fifo_core mm v]
  constructor
  · rw [cacheGet_range' v (mm + 1) 1 0]
    rw [if_neg (by omega)]
  · intro k hk1 hkm
    rw [cacheGet_range' v (mm + 1) 1 k]
    rw [if_pos (by omega)]

/-- Witness for C3 at `maxSize = 3` and constant values. -/
theorem cache_evicts_oldest_witness :
    cacheGet 0 (putAll 3 ((List.range 4).map (fun i => (i, "x"))) []) = none ∧
    cacheGet 3 (putAll 3 ((List.range 4).map (fun i => (i, "x"))) []) = some "x" :=
  ⟨(cache_evicts_oldest 3 (by decide) (fun _ => "x")).1,
   (cache_evicts_oldest 3 (by decide) (fun _ => "x")).2 3 (by decide) (by decide)⟩

/-- Counterexample to claim C4: on a failed probe, `checkPuterConnection`
performs one attempt with no backoff delay and goes offline, not five
attempts with the `min (1000 * 2 ^ (k - 1)) 10000` delay schedule the
claim states. -/
theorem checkPuterConnection_backoff_cex :
    specBackoffDelays 1000 10000 5 = [1000, 2000, 4000, 8000, 10000] ∧
    (checkPuterConnection true (.rejected .networkError)).attempts = 1 ∧
    (checkPuterConnection true (.rejected .networkError)).delays = [] ∧
    ¬((checkPuterConnection true (.rejected .networkError)).attempts = 5 ∧
      (checkPuterConnection true (.rejected .networkError)).delays =
        specBackoffDelays 1000 10000 5) := by
  decide

/-- Claim C4 as amended: a reconnection pass performs exactly one probe
(raced against a 5000 ms timeout) with no backoff delay; any failure —
missing bridge, rejection or timeout — transitions the Connection Monitor
to offline, and a resolved probe transitions it to connected. -/
theorem checkPuterConnection_single_attempt (probe : ProbeOutcome) :
    (checkPuterConnection true probe).attempts = 1 ∧
    (checkPuterConnection true probe).delays = [] ∧
    (∀ e, checkPuterConnection true (.rejected e) = ⟨false, .offline, 1, []⟩) ∧
    checkPuterConnection true .timedOut = ⟨false, .offline, 1, []⟩ ∧
    (∀ v, checkPuterConnection true (.resolved v) = ⟨true, .connected, 1, []⟩) ∧
    checkPuterConnection false probe = ⟨false, .offline, 0, []⟩ := by
  refine ⟨?_, ?_, fun e => rfl, rfl, fun v => rfl, rfl⟩ <;> cases probe <;> rfl

/-- Counterexample to claim C5: with caching claimed, two identical
`callClaude` calls in the connected state should make exactly one bridge
invocation in total; the code makes one per call, two in total. -/
theorem callClaude_no_cache_cex :
    (callClaude true true true ⟨fun _ _ => .value (.vstr "hi")⟩ "ciao"
        "claude-3-sonnet-20240229").2 +
      (callClaude true true true ⟨fun _ _ => .value (.vstr "hi")⟩ "ciao"
        "claude-3-sonnet-20240229").2 = 2 ∧
    ¬((callClaude true true true ⟨fun _ _ => .value (.vstr "hi")⟩ "ciao"
        "claude-3-sonnet-20240229").2 +
      (callClaude true true true ⟨fun _ _ => .value (.vstr "hi")⟩ "ciao"
        "claude-3-sonnet-20240229").2 = 1) := by
  decide

/-- Claim C5 as amended: `callClaude` performs no caching — every call in
the connected state invokes the remote bridge at least once, so two calls
with identical arguments never amount to exactly one bridge invocation. -/
theorem callClaude_no_caching (env : BridgeEnv) (p m : String) :
    1 ≤ (callClaude true true true env p m).2 ∧
    (callClaude true true true env p m).2 + (callClaude true true true env p m).2 ≠ 1 := by
  have h := callClaude_count_pos env p m
  exact ⟨h, by omega⟩

/-- Counterexample to claim C6: a streaming sequence that delivers two
chunks and then raises a network error does not surface that error — the
code retries without streaming and returns the fallback's text as a
success; the partial concatenation is discarded, not returned. -/
theorem callClaude_midstream_fallback_cex :
    callClaude true true true
        ⟨fun _ o => if o.stream then .value (.viter [some "He", some "llo"] (some .networkError))
                    else .value (.vstr "recovered")⟩ "p" "m" =
      (.retStr "recovered", 2) ∧
    (CallResult.retStr "recovered").isThrown = false ∧
    CallResult.retStr "recovered" ≠ .retStr (accumChunks [some "He", some "llo"]) := by
  decide

/-- Claim C6 as amended: a mid-stream failure discards the delivered
chunks (the outcome does not depend on them) and retries once without
streaming; only if that fallback call also fails does its error propagate
to the caller, and the partial concatenation is never the result. -/
theorem callClaude_midstream_partial_discarded (env env' : BridgeEnv) (p m : String)
    (chunks chunks' : List (Option String)) (e e' : Err)
    (hs : env.chat p ⟨m, true⟩ = .value (.viter chunks (some e)))
    (hs' : env'.chat p ⟨m, true⟩ = .value (.viter chunks' (some e')))
    (hfb : env.chat p ⟨m, false⟩ = env'.chat p ⟨m, false⟩) :
    callClaude true true true env p m = callClaude true true true env' p m ∧
    (∀ e2, env.chat p ⟨m, false⟩ = .thrown e2 →
        callClaude true true true env p m = (.threw e2, 2)) := by
  constructor
  · simp only [callClaude, fallbackCall, hs, hs', hfb]
  · intro e2 h2
    simp only [callClaude, fallbackCall, hs, h2]
    rfl

/-- Witness for C6 at two concrete environments differing only in the
chunks delivered before the failure. -/
theorem callClaude_midstream_partial_discarded_witness :
    callClaude true true true
        ⟨fun _ o => if o.stream then .value (.viter [some "a"] (some .timeout))
                    else .thrown .networkError⟩ "p" "m" =
      callClaude true true true
        ⟨fun _ o => if o.stream then .value (.viter [] (some .networkError))
                    else .thrown .networkError⟩ "p" "m" ∧
    (∀ e2, BridgeEnv.chat
        ⟨fun _ o => if o.stream then .value (.viter [some "a"] (some .timeout))
                    else .thrown .networkError⟩ "p" ⟨"m", false⟩ = .thrown e2 →
      callClaude true true true
        ⟨fun _ o => if o.stream then .value (.viter [some "a"] (some .timeout))
                    else .thrown .networkError⟩ "p" "m" = (.threw e2, 2)) :=
  callClaude_midstream_partial_discarded
    ⟨fun _ o => if o.stream then .value (.viter [some "a"] (some .timeout))
                else .thrown .networkError⟩
    ⟨fun _ o => if o.stream then .value (.viter [] (some .networkError))
                else .thrown .networkError⟩
    "p" "m" [some "a"] [] .timeout .networkError rfl rfl rfl

/-- Counterexample to claim C7: a non-empty prompt with a model identifier
that names no configured model is not rejected — the bridge is invoked
once with it, and no validation error is produced. -/
theorem sendMessage_unvalidated_model_cex :
    sendMessageBridgeCalls false "ciao" true true true ⟨fun _ _ => .value (.vstr "ok")⟩
        "" "not-a-real-model" = 1 ∧
    "not-a-real-model" ∉ CONFIG_MODEL_IDS := by
  decide

/-- Claim C7 as amended: an empty (or whitespace-only) prompt is rejected
before any dispatch, with zero bridge invocations; the model identifier is
never validated — for every model string, configured or not, a non-empty
prompt in the connected state reaches the bridge. -/
theorem sendMessage_validation (env : BridgeEnv) (context model : String) :
    (∀ input rdy pd ad, jsTrim input = "" →
        sendMessageBridgeCalls false input rdy pd ad env context model = 0) ∧
    (∀ input, jsTrim input ≠ "" →
        1 ≤ sendMessageBridgeCalls false input true true true env context model) := by
  constructor
  · intro input rdy pd ad h
    unfold sendMessageBridgeCalls
    rw [if_neg (by simp)]
    rw [if_pos h]
  · intro input h
    unfold sendMessageBridgeCalls
    rw [if_neg (by simp)]
    rw [if_neg h]
    exact callClaude_count_pos env _ model

/-- Counterexample to claim C8: a bridge result `{content: "x"}` with no
`text` field, resolved by the streaming call, is returned as the raw
object by `callClaude`, not normalized to the string `"x"`. -/
theorem callClaude_content_unnormalized_cex :
    callClaude true true true ⟨fun _ _ => .value (.vobj none (some "x"))⟩ "p" "m" =
      (.retObj none (some "x"), 1) ∧
    CallResult.retObj none (some "x") ≠ .retStr "x" := by
  decide

/-- Claim C8 as amended: the streaming attempt normalizes plain strings,
truthy `{text}` objects and completed async sequences (concatenating the
fragments); the `{content}` shape is normalized only on the non-streaming
fallback path, and a `{content}`-only object resolved by the streaming
attempt is returned unnormalized. -/
theorem callClaude_normalization (env : BridgeEnv) (p m : String) :
    (∀ s, s ≠ "" → env.chat p ⟨m, true⟩ = .value (.vstr s) →
        callClaude true true true env p m = (.retStr s, 1)) ∧
    (∀ t c, t ≠ "" → env.chat p ⟨m, true⟩ = .value (.vobj (some t) c) →
        callClaude true true true env p m = (.retStr t, 1)) ∧
    (∀ chunks, env.chat p ⟨m, true⟩ = .value (.viter chunks none) →
        accumChunks chunks ≠ "" →
        callClaude true true true env p m = (.retStr (accumChunks chunks), 1)) ∧
    (∀ e s, env.chat p ⟨m, true⟩ = .thrown e →
        env.chat p ⟨m, false⟩ = .value (.vstr s) →
        callClaude true true true env p m = (.retStr s, 2)) ∧
    (∀ e c, c ≠ "" → env.chat p ⟨m, true⟩ = .thrown e →
        env.chat p ⟨m, false⟩ = .value (.vobj none (some c)) →
        callClaude true true true env p m = (.retStr c, 2)) ∧
    (∀ c, env.chat p ⟨m, true⟩ = .value (.vobj none (some c)) →
        (callClaude true true true env p m).1 = .retObj none (some c)) := by
  refine ⟨?_, ?_, ?_, ?_, ?_, ?_⟩
  · intro s hs henv
    simp only [callClaude, henv]
    simp [hs]
  · intro t c ht henv
    simp only [callClaude, henv]
    simp [ht]
  · intro chunks henv hacc
    simp only [callClaude, henv]
    simp [hacc]
  · intro e s henv hfb
    simp only [callClaude, fallbackCall, henv, hfb]
    rfl
  · intro e c hc henv hfb
    simp only [callClaude, fallbackCall, henv, hfb]
    simp [normalizeFallback, hc]
  · intro c henv
    simp only [callClaude, henv]
    rfl

/-- Claim C9: a refused `sendMessage` call (already processing) leaves the
flag as it was, and every completed `sendMessage` call — early return,
success or thrown error — ends with `isProcessing = false`, ready for the
next call; a thrown error is surfaced as an error message event. -/
theorem sendMessage_processing_flag (input : String) (call : CallResult) :
    (sendMessage false input call).1 = false ∧
    (sendMessage true input call).1 = true ∧
    (∀ e, jsTrim input ≠ "" →
        sendMessage false input (.threw e) =
          (false, [.userMsg (jsTrim input), .errorMsg e])) := by
  refine ⟨?_, rfl, ?_⟩
  · by_cases h : jsTrim input = ""
    · simp [sendMessage, h]
    · cases call <;> simp [sendMessage, h]
  · intro e h
    simp [sendMessage, h]

/-- Claim C10: `formatMessage` escapes `&`, `<` and `>` (in that order)
before the markdown substitutions, so the marked pipeline shows that no
`<` or `>` of the produced HTML originates from the input string; erasing
the marks recovers `formatMessage` itself. -/
theorem formatMessage_neutralizes_input_markup (s : List Char) :
    (formatMessageMarked s).map Prod.fst = formatMessage s ∧
    ∀ b ∈ formatMessageMarked s, b.2 = true → b.1 ≠ '<' ∧ b.1 ≠ '>' :=
  ⟨formatMessageMarked_erase s, formatMessageMarked_input_safe s⟩

end ClaudeAISuite
